import Mathlib

set_option maxRecDepth 8000

/-!
Shallow embedding of the invitation-card rendering core of the
sherehezetu repository (files `events/models.py` and `events/utils.py`),
together with theorems settling the specification claims about it.

Modelling conventions:

* Python strings are modelled as Lean `String` / `List Char`; the embedding
  covers ASCII inputs (the Unicode-only corners of Python's `str.strip`,
  `str.split` and `int(s, 16)`, such as non-ASCII digit characters, are
  outside the model).
* Pillow images are abstracted to the data the claims speak about: an image
  is its pixel dimensions plus a coarse content descriptor.  In-place
  drawing primitives (`ImageDraw` calls, `Image.paste`) never change the
  dimensions of the image drawn on; `Image.new` and `Image.resize` produce
  exactly the requested dimensions; `Image.alpha_composite` fails unless
  both operands share dimensions and otherwise keeps them.
* Fonts are abstracted to their measuring behaviour: either a function from
  the text to the width `bbox[2] - bbox[0]` reported by `getbbox`, or a
  function from the font size to the measured width of one fixed text.
* Fallible code is modelled with `Except` / `Option`.  Where the original
  code wraps a block in a broad `try/except`, the possibility of an
  arbitrary runtime exception inside the block is modelled by an explicit
  Boolean oracle parameter deciding whether that block fails.
-/

/-- ASCII whitespace as recognised by Python's `str.strip`, `str.split`
and `int`: space, tab, newline, carriage return, vertical tab, form feed. -/
def isPyWS (c : Char) : Bool :=
  c = ' ' || c = '\t' || c = '\n' || c = '\r' || c = '\x0b' || c = '\x0c'

/-- Python `s.strip()` on ASCII text: drop whitespace from both ends. -/
def pyStrip (cs : List Char) : List Char :=
  ((cs.dropWhile isPyWS).reverse.dropWhile isPyWS).reverse

/-- Python `s.lstrip('#')`: drop every leading `#` character. -/
def lstripHash : List Char → List Char
  | [] => []
  | c :: cs => if c = '#' then lstripHash cs else c :: cs

/-- Value table of the hexadecimal digit characters accepted by Python's
`int(_, 16)` (ASCII digits and letters in both cases). -/
def hexDigitTable : List (Char × Nat) :=
  [('0', 0), ('1', 1), ('2', 2), ('3', 3), ('4', 4), ('5', 5), ('6', 6), ('7', 7),
   ('8', 8), ('9', 9),
   ('a', 10), ('b', 11), ('c', 12), ('d', 13), ('e', 14), ('f', 15),
   ('A', 10), ('B', 11), ('C', 12), ('D', 13), ('E', 14), ('F', 15)]

/-- Numeric value of a hexadecimal digit character, if it is one. -/
def hexVal? (c : Char) : Option Nat :=
  (hexDigitTable.find? (fun p => p.1 = c)).map (fun p => p.2)

/-- Python `int(s, 16)` restricted to two-character ASCII strings — the only
shape `hex_to_rgb` ever passes to `int` (every examined slice has length
two).  Python accepts two hex digits, a hex digit with whitespace on the
other side, or a sign character directly followed by a hex digit; every
other two-character string raises `ValueError`, modelled here as `none`. -/
def pyInt16Pair? (a b : Char) : Option Int :=
  match hexVal? a, hexVal? b with
  | some x, some y => some (16 * (x : Int) + (y : Int))
  | some x, none => if isPyWS b then some ((x : Nat) : Int) else none
  | none, some y =>
      if isPyWS a then some ((y : Nat) : Int)
      else if a = '+' then some ((y : Nat) : Int)
      else if a = '-' then some (-((y : Nat) : Int))
      else none
  | none, none => none

/-- Normalisation performed by `events/utils.py::hex_to_rgb` before parsing:
`hex_color.lstrip('#').strip()`, then a three-character result is expanded
by doubling every character (`''.join([c*2 for c in hex_color])`). -/
def hexNormalize (s : String) : List Char :=
  let cs := pyStrip (lstripHash s.data)
  if cs.length = 3 then cs.flatMap (fun c => [c, c]) else cs

/-- Parsing stage of `events/utils.py::hex_to_rgb` after normalisation: a
six- or eight-character string is read as three byte pairs — the trailing
two characters of the eight-character form (the alpha channel) are never
examined — and any `ValueError` from `int` or any other length falls back
to the fixed colour `(124, 61, 237)`. -/
def hexParse : List Char → Int × Int × Int
  | [a, b, c, d, e, f] | [a, b, c, d, e, f, _, _] =>
    match pyInt16Pair? a b, pyInt16Pair? c d, pyInt16Pair? e f with
    | some r, some g, some bl => (r, g, bl)
    | _, _, _ => (124, 61, 237)
  | _ => (124, 61, 237)

/-- `events/utils.py::hex_to_rgb` for string inputs (the non-string branch
of the source returns the same fallback colour and is outside this model;
the `lru_cache` decorator does not change the function's value). -/
def hex_to_rgb (s : String) : Int × Int × Int :=
  hexParse (hexNormalize s)

/-- Lower-case hexadecimal digit character for a value below 16. -/
def toHexDigit (n : Nat) : Char :=
  if n < 10 then Char.ofNat ('0'.toNat + n) else Char.ofNat ('a'.toNat + (n - 10))

/-- Two lower-case hexadecimal digits of a byte value. -/
def byteHexChars (n : Nat) : List Char :=
  [toHexDigit (n / 16 % 16), toHexDigit (n % 16)]

/-- Modelled from the spec: the repository has no `rgbToHex` under `src/`
(§8 "Hex round-trip" names it only as the inverse of `hexToRgb`), so it is
modelled from the spec's words as the standard six-digit lower-case
hexadecimal rendering of an RGB triple. -/
def rgb_to_hex (c : Int × Int × Int) : String :=
  String.mk (byteHexChars c.1.toNat ++ byteHexChars c.2.1.toNat ++ byteHexChars c.2.2.toNat)

/-- Theme-relevant fields of `events/models.py::Event`. -/
structure Event where
  id : Nat
  title : String
  venue : String
  primary_color : String
  secondary_color : String
  accent_color : String
  background_color : String
  title_font : String
  name_font : String
  body_font : String
  show_border : Bool
  border_style : String
  show_qr_background : Bool
  show_decorations : Bool
deriving Repr, DecidableEq

/-- Colour block of the dict built by `Event.get_template_settings`. -/
structure ThemeColors where
  primary : String
  secondary : String
  accent : String
  background : String
deriving Repr, DecidableEq

/-- Font block of the dict built by `Event.get_template_settings`. -/
structure ThemeFonts where
  title : String
  name : String
  body : String
deriving Repr, DecidableEq

/-- Decoration block of the dict built by `Event.get_template_settings`.
The dict has no `gradient_background` key, which is why that field is an
`Option` left at `none`: `CardGenerator.create_background` reads it with
`.get('gradient_background', True)`. -/
structure ThemeDecorations where
  show_border : Bool
  border_style : String
  show_qr_background : Bool
  show_decorations : Bool
  gradient_background : Option Bool
deriving Repr, DecidableEq

/-- Shape of the dict returned by `Event.get_template_settings`. -/
structure TemplateSettings where
  template : String
  colors : ThemeColors
  fonts : ThemeFonts
  decorations : ThemeDecorations
deriving Repr, DecidableEq

/-- `events/models.py::Event.get_template_settings`. -/
def Event.get_template_settings (e : Event) : TemplateSettings :=
  { template := "modern"
    colors :=
      { primary := e.primary_color
        secondary := e.secondary_color
        accent := e.accent_color
        background := e.background_color }
    fonts :=
      { title := e.title_font
        name := e.name_font
        body := e.body_font }
    decorations :=
      { show_border := e.show_border
        border_style := e.border_style
        show_qr_background := e.show_qr_background
        show_decorations := e.show_decorations
        gradient_background := none } }

/-- Identity and rendering fields of `events/models.py::Guest`.  `qr_code`
holds `str(guest.qr_code)`, the canonical text of the immutable QR UUID. -/
structure Guest where
  event : Event
  id : Nat
  title : String
  full_name : String
  qr_code : String
  custom_message : Option String
deriving Repr, DecidableEq

/-- `events/models.py::Guest.generate_qr_data`:
`f"EVENT:{self.event.id}|GUEST:{self.id}|CODE:{self.qr_code}"`. -/
def Guest.generate_qr_data (g : Guest) : String :=
  "EVENT:" ++ toString g.event.id ++ "|GUEST:" ++ toString g.id ++ "|CODE:" ++ g.qr_code

/-- Coarse content descriptor of a Pillow image in this model. -/
inductive ImgData where
  | solid (color : Int × Int × Int)
  | qrSym (payload : String) (fill back : Int × Int × Int)
  | art
deriving Repr, DecidableEq

/-- A Pillow image: its pixel dimensions and a coarse content tag. -/
structure PILImage where
  width : Nat
  height : Nat
  data : ImgData
deriving Repr, DecidableEq

/-- `Image.new('RGB', (w, h), color)`. -/
def imageNew (w h : Nat) (color : Int × Int × Int) : PILImage :=
  ⟨w, h, ImgData.solid color⟩

/-- `Image.resize` yields exactly the requested dimensions. -/
def imageResize (img : PILImage) (w h : Nat) : PILImage :=
  ⟨w, h, img.data⟩

/-- In-place `Image.paste`: the base image keeps its dimensions; its pixel
content (not tracked beyond the tag) changes. -/
def imagePaste (base : PILImage) (_over : PILImage) : PILImage :=
  ⟨base.width, base.height, ImgData.art⟩

/-- `Image.alpha_composite` raises `ValueError` unless both images share
dimensions; on success the result has those dimensions. -/
def alphaComposite (a b : PILImage) : Option PILImage :=
  if a.width = b.width ∧ a.height = b.height then some ⟨a.width, a.height, ImgData.art⟩ else none

/-- Character class of QR numeric mode. -/
def qrNumericChar (c : Char) : Bool :=
  '0' ≤ c && c ≤ '9'

/-- Character class of QR alphanumeric mode. -/
def qrAlnumChar (c : Char) : Bool :=
  qrNumericChar c || ('A' ≤ c && c ≤ 'Z') || c = ' ' || c = '$' || c = '%' ||
    c = '*' || c = '+' || c = '-' || c = '.' || c = '/' || c = ':'

/-- Capacity check performed by `qr.make(fit=True)` in the `qrcode`
library: the data is encoded in numeric, alphanumeric or byte mode
(whichever applies), and the best-fitting version is chosen; at version 40
with error correction H the capacities are 3057 digits, 1852 alphanumeric
characters, or 1273 bytes.  A payload beyond these limits makes `qr.make`
raise `DataOverflowError`. -/
def qrFitsV40H (s : String) : Bool :=
  if s.data.all qrNumericChar then s.length ≤ 3057
  else if s.data.all qrAlnumChar then s.length ≤ 1852
  else s.utf8ByteSize ≤ 1273

/-- `events/utils.py::generate_qr_code`.  The `try` block builds the QR
object, calls `qr.add_data(data)` and `qr.make(fit=True)`, then assigns
`fill_color = hex_to_rgb(primary_color)` and `back_color =
hex_to_rgb(bg_color)`, and finally calls `make_image`, `convert` and
`resize`.  `postEncodeFail` models a runtime exception in one of the steps
after `back_color` is assigned: the `except` handler then returns
`Image.new('RGB', (size, size), back_color)`.  When `qr.make` itself
raises (payload over capacity), `back_color` is still unbound, so the
handler's reference to it raises `UnboundLocalError` out of the function —
modelled as `Except.error`. -/
def generate_qr_code (data : String) (size : Nat) (primary_color bg_color : String)
    (postEncodeFail : Bool) : Except String PILImage :=
  if qrFitsV40H data then
    if postEncodeFail then
      Except.ok (imageNew size size (hex_to_rgb bg_color))
    else
      Except.ok ⟨size, size, ImgData.qrSym data (hex_to_rgb primary_color) (hex_to_rgb bg_color)⟩
  else
    Except.error "UnboundLocalError: local variable back_color referenced before assignment"

/-- `int(x * (PRINT_DPI / SCREEN_DPI))` for a non-negative integer `x`:
`300 / 96 = 3.125 = 25/8` is exact in binary floating point, and for the
magnitudes used in this file `x * 3.125` is exact as well, so the float
expression equals the integer computation `x * 25 / 8` (truncation towards
zero coincides with floor on non-negative values). -/
def scale (x : Nat) : Nat :=
  x * 25 / 8

/-- `events/utils.py` constant `PRINT_DPI`. -/
def PRINT_DPI : Nat := 300

/-- `events/utils.py` constant `CARD_WIDTH_INCHES`. -/
def CARD_WIDTH_INCHES : Nat := 5

/-- `events/utils.py` constant `CARD_HEIGHT_INCHES`. -/
def CARD_HEIGHT_INCHES : Nat := 7

/-- `self.width` as computed in `CardGenerator.__init__`. -/
def cardWidth : Nat := CARD_WIDTH_INCHES * PRINT_DPI

/-- `self.height` as computed in `CardGenerator.__init__`. -/
def cardHeight : Nat := CARD_HEIGHT_INCHES * PRINT_DPI

/-- `self.margin` as computed in `CardGenerator.__init__`. -/
def cardMargin : Nat := scale 60

/-- `self.content_width` as computed in `CardGenerator.__init__`. -/
def contentWidth : Nat := cardWidth - 2 * cardMargin

/-- The bounded shrink-to-fit loop of `draw_header` and
`draw_guest_section`: while attempts remain and the measured width of the
text at the current font size exceeds the budget, decrease the size by 2
and reload the font.  `widthOf s` abstracts `textbbox((0,0), text,
font=load_custom_font(name, s))[2]`; the fuel argument is the remaining
attempt budget (`max_attempts - attempts`). -/
def shrinkToFit (widthOf : Int → Nat) (maxW : Nat) : Nat → Int → Int
  | 0, size => size
  | fuel + 1, size =>
    if widthOf size > maxW then shrinkToFit widthOf maxW fuel (size - 2) else size

/-- Final title font size of `draw_header`: initial size
`int(64 * (PRINT_DPI / SCREEN_DPI)) = 200`, budget `content_width`, at
most 10 attempts. -/
def headerTitleFontSize (widthOf : Int → Nat) : Int :=
  shrinkToFit widthOf contentWidth 10 ((scale 64 : Nat) : Int)

/-- Final guest-name font size of `draw_guest_section`: initial size
`int(72 * (PRINT_DPI / SCREEN_DPI)) = 225`, budget `content_width - 100`,
at most 15 attempts. -/
def guestNameFontSize (widthOf : Int → Nat) : Int :=
  shrinkToFit widthOf (contentWidth - 100) 15 ((scale 72 : Nat) : Int)

/-- Python `text.split()` on ASCII text: the maximal runs of
non-whitespace characters, with no empty words.  `cur` accumulates the
current word in reverse. -/
def splitWSAux (cur : List Char) : List Char → List (List Char)
  | [] => if cur.isEmpty then [] else [cur.reverse]
  | c :: cs =>
    if isPyWS c then
      if cur.isEmpty then splitWSAux [] cs else cur.reverse :: splitWSAux [] cs
    else splitWSAux (c :: cur) cs

/-- Python `text.split()` (no separator argument). -/
def pySplit (cs : List Char) : List (List Char) :=
  splitWSAux [] cs

/-- The nested loops of `events/utils.py::wrap_text`, with the inner
`while` fused into one structural recursion over the word list.  The state
`line` is the accumulated test line (each taken word followed by one
space, exactly as built by `test_line = line + words[0] + ' '`).  For each
next word `w` the code measures `line + w + ' '` against `max_width`: if
it fits, the word is taken; otherwise the inner loop breaks, a non-empty
`line` is emitted stripped, and the outer loop restarts on the unchanged
word list — which first re-tests `w` against the empty line (inlined here
as the nested `if`), and a word that does not fit even alone is popped and
emitted as its own line. -/
def wrapWords (measure : List Char → Nat) (maxW : Nat) :
    List Char → List (List Char) → List (List Char)
  | line, [] => if line.isEmpty then [] else [pyStrip line]
  | line, w :: ws =>
    if measure (line ++ w ++ [' ']) ≤ maxW then wrapWords measure maxW (line ++ w ++ [' ']) ws
    else if line.isEmpty then pyStrip w :: wrapWords measure maxW [] ws
    else
      pyStrip line ::
        (if measure (w ++ [' ']) ≤ maxW then wrapWords measure maxW (w ++ [' ']) ws
         else pyStrip w :: wrapWords measure maxW [] ws)

/-- `events/utils.py::wrap_text`: empty text returns `[]` immediately;
otherwise the words of `text.split()` are wrapped greedily. -/
def wrap_text (measure : List Char → Nat) (maxW : Nat) (text : List Char) : List (List Char) :=
  if text.isEmpty then [] else wrapWords measure maxW [] (pySplit text)

/-- Follows the spec's words (§4.3 `wrap` and claim C6): the greedy guard
measures `line + nextWord` — the current line joined to the next word with
a single separating space and no trailing space — against the budget, and
a single word is emitted on its own line when its measured width alone
exceeds the budget. -/
def wrapSpecWords (measure : List Char → Nat) (maxW : Nat) :
    List Char → List (List Char) → List (List Char)
  | line, [] => if line.isEmpty then [] else [line]
  | line, w :: ws =>
    if measure (if line.isEmpty then w else line ++ [' '] ++ w) ≤ maxW then
      wrapSpecWords measure maxW (if line.isEmpty then w else line ++ [' '] ++ w) ws
    else if line.isEmpty then w :: wrapSpecWords measure maxW [] ws
    else
      line ::
        (if measure w ≤ maxW then wrapSpecWords measure maxW w ws
         else w :: wrapSpecWords measure maxW [] ws)

/-- Follows the spec's words: `wrap(text, font, maxWidthPx)` as described
in §4.3, for comparison with the implementation `wrap_text`. -/
def wrap_text_spec (measure : List Char → Nat) (maxW : Nat) (text : List Char) :
    List (List Char) :=
  if text.isEmpty then [] else wrapSpecWords measure maxW [] (pySplit text)

/-- A word list rendered the way `wrap_text` accumulates its test line:
every word followed by one space. -/
def sepJoin (ws : List (List Char)) : List Char :=
  (ws.map (fun w => w ++ [' '])).flatten

/-- A word list joined with single separating spaces (what a stripped
line of `wrap_text` looks like). -/
def joinSp : List (List Char) → List Char
  | [] => []
  | [w] => w
  | w :: ws => w ++ [' '] ++ joinSp ws

/-- Word-level restatement of the greedy loop of `wrap_text`: the same
control flow as `wrapWords`, but the state is the list `cur` of words on
the current line (in reverse) instead of the accumulated string, and lines
are emitted as word groups.  The guard measures `sepJoin` of the group
extended by the next word, which is exactly the string `wrapWords`
measures. -/
def groupGreedy (measure : List Char → Nat) (maxW : Nat) :
    List (List Char) → List (List Char) → List (List (List Char))
  | cur, [] => if cur.isEmpty then [] else [cur.reverse]
  | cur, w :: ws =>
    if measure (sepJoin (cur.reverse ++ [w])) ≤ maxW then groupGreedy measure maxW (w :: cur) ws
    else if cur.isEmpty then [w] :: groupGreedy measure maxW [] ws
    else
      cur.reverse ::
        (if measure (sepJoin [w]) ≤ maxW then groupGreedy measure maxW [w] ws
         else [w] :: groupGreedy measure maxW [] ws)

/-- A word as produced by `text.split()`: non-empty and containing no
whitespace characters. -/
def WordClean (w : List Char) : Prop :=
  w ≠ [] ∧ ∀ c ∈ w, isPyWS c = false

instance (w : List Char) : Decidable (WordClean w) := by
  unfold WordClean; infer_instance

/-- Python `s.replace(old, new)` for single-character arguments, which is
a character-wise map. -/
def pyReplaceChar (cs : List Char) (old new : Char) : List Char :=
  cs.map (fun c => if c = old then new else c)

/-- Filename derivation in `events/utils.py::generate_invitation_card`:
`f"invitation_{event.id}_{guest.id}_{full_name.replace(' ', '_').replace('/', '_')}.png"`. -/
def derive_filename (event_id guest_id : Nat) (full_name : String) : String :=
  "invitation_" ++ toString event_id ++ "_" ++ toString guest_id ++ "_" ++
    String.mk (pyReplaceChar (pyReplaceChar full_name.data ' ' '_') '/' '_') ++ ".png"

/-- Modelled from the spec: `deriveFilename` per §4.6 — `fullName`
sanitised by replacing whitespace and path-separator characters (forward
and backward slash) with underscores. -/
def derive_filename_spec (event_id guest_id : Nat) (full_name : String) : String :=
  "invitation_" ++ toString event_id ++ "_" ++ toString guest_id ++ "_" ++
    String.mk (full_name.data.map (fun c => if isPyWS c || c = '/' || c = '\\' then '_' else c)) ++
    ".png"

/-- One per-guest entry of the batch summary built by
`generate_cards_for_event`.  `card_url` is present only on success entries
(hence doubly optional: the outer `Option` is key presence, the inner one
is the `... if guest.invitation_card else None` value). -/
structure BatchEntry where
  guest : String
  status : String
  card_url : Option (Option String)
  error : Option String
deriving Repr, DecidableEq

/-- Outcome oracle for the body of the per-guest loop in
`generate_cards_for_event`.  `generate_invitation_card` catches every
exception internally and returns a Boolean; the loop body around it can
still raise (for example while reading `guest.invitation_card.url` to
build the success entry, which happens after `success_count` was already
incremented), and such exceptions are caught by the per-guest `except`,
producing an `error` entry with `str(e)[:100]`. -/
inductive GuestStep where
  | raises (msg : String)
  | returnsFalse
  | returnsTrue (url : Option String)
  | returnsTrueThenRaises (msg : String)
deriving Repr, DecidableEq

/-- One iteration of the per-guest loop of `generate_cards_for_event`:
given the running success count, produce the updated count and the result
entry appended for this guest. -/
def processGuest (name : String) (st : GuestStep) (succ : Nat) : Nat × BatchEntry :=
  match st with
  | GuestStep.raises msg =>
      (succ, ⟨name, "error", none, some (String.mk (msg.data.take 100))⟩)
  | GuestStep.returnsFalse =>
      (succ, ⟨name, "failed", none, some "Generation failed"⟩)
  | GuestStep.returnsTrue url =>
      (succ + 1, ⟨name, "success", some url, none⟩)
  | GuestStep.returnsTrueThenRaises msg =>
      (succ + 1, ⟨name, "error", none, some (String.mk (msg.data.take 100))⟩)

/-- The summary dict returned by `generate_cards_for_event`. -/
structure BatchSummary where
  total : Nat
  success : Nat
  failed : Nat
  results : List BatchEntry
deriving Repr, DecidableEq

/-- `events/utils.py::generate_cards_for_event`, given the guest list the
ORM query produced (the function's outer `try` guards only that query and
logging, which are outside this model): guests are processed sequentially,
each contributing exactly one result entry, and the summary reports
`total`, `success` and `failed = total - success`. -/
def generate_cards_for_event (guests : List (String × GuestStep)) : BatchSummary :=
  let p := guests.foldl
    (fun (acc : Nat × List BatchEntry) gp =>
      let r := processGuest gp.1 gp.2 acc.1
      (r.1, acc.2 ++ [r.2]))
    (0, ([] : List BatchEntry))
  ⟨guests.length, p.1, guests.length - p.1, p.2⟩

/-- Failure oracle plus abstract text metrics for one run of
`CardGenerator.generate`.  Each Boolean field tells whether the broad
`try` block of the corresponding stage raises a runtime exception (taking
that stage's `except` fallback path); `topFail` covers an exception that
escapes the stage structure itself (for example the fallback `Image.new`
inside `create_background`'s handler failing), which is caught by
`generate`'s own top-level handler.  The `Nat`-valued fields abstract
`textbbox` heights, the function-valued fields abstract measured text
widths as functions of the font size or of the text. -/
structure GenOracle where
  topFail : Bool
  bgFail : Bool
  bgImage : Option PILImage
  headerFail : Bool
  headerTextH : Nat
  titleWidthOf : Int → Nat
  guestFail : Bool
  nameWidthOf : Int → Nat
  messageFail : Bool
  msgMeasure : List Char → Nat
  detailsFail : Bool
  qrFail : Bool
  qrPostEncodeFail : Bool

/-- `CardGenerator.create_background`: a fresh canvas of the card
dimensions filled with the theme background colour; the gradient overlay
is always pasted because the settings dict has no `gradient_background`
key and `.get(..., True)` defaults to true; an optional background image
is resized to the canvas size and alpha-composited over it.  Any failure
inside the `try` (including a composite size mismatch) is caught and
replaced by a solid white canvas of the same dimensions. -/
def CardGenerator.create_background (e : Event) (o : GenOracle) : PILImage :=
  if o.bgFail then imageNew cardWidth cardHeight (255, 255, 255)
  else
    let st := e.get_template_settings
    let base := imageNew cardWidth cardHeight (hex_to_rgb st.colors.background)
    let base :=
      if st.decorations.gradient_background.getD true then
        imagePaste base (imageNew cardWidth cardHeight (hex_to_rgb st.colors.secondary))
      else base
    match o.bgImage with
    | some bg =>
      match alphaComposite base (imageResize bg cardWidth cardHeight) with
      | some img => img
      | none => imageNew cardWidth cardHeight (255, 255, 255)
    | none => base

/-- `CardGenerator.draw_header`: returns the vertical cursor after the
header.  The title font is fitted by the bounded shrink loop
(`headerTitleFontSize`); on a stage failure the fixed fallback cursor
`int(200 * (PRINT_DPI / SCREEN_DPI))` is returned.  Drawing happens in
place and does not alter the canvas dimensions. -/
def CardGenerator.draw_header (o : GenOracle) : Int :=
  if o.headerFail then ((scale 200 : Nat) : Int)
  else
    let _fittedSize := headerTitleFontSize o.titleWidthOf
    let headerH : Int := (scale 180 : Nat)
    let y := Int.fdiv (headerH - (o.headerTextH : Int)) 2
    let dividerY := y + (o.headerTextH : Int) + ((scale 20 : Nat) : Int)
    dividerY + ((scale 30 : Nat) : Int)

/-- `CardGenerator.draw_guest_section`: returns the cursor after the guest
name panel; the name font is fitted by the bounded shrink loop
(`guestNameFontSize`); stage failure falls back to
`start_y + int(180 * (PRINT_DPI / SCREEN_DPI))`. -/
def CardGenerator.draw_guest_section (o : GenOracle) (startY : Int) : Int :=
  if o.guestFail then startY + ((scale 180 : Nat) : Int)
  else
    let _fittedSize := guestNameFontSize o.nameWidthOf
    startY + ((scale 140 : Nat) : Int) + ((scale 40 : Nat) : Int)

/-- `CardGenerator.draw_invitation_message`: the guest's custom message
(or the fixed default when it is `None` or empty — Python `or`) is wrapped
with `wrap_text` and drawn line by line; returns the cursor after the
lines; stage failure falls back to `start_y + int(150 * 3.125)`. -/
def CardGenerator.draw_invitation_message (g : Guest) (o : GenOracle) (startY : Int) : Int :=
  if o.messageFail then startY + ((scale 150 : Nat) : Int)
  else
    let fontSize := scale 36
    let message :=
      match g.custom_message with
      | some m => if m.data.isEmpty then
          "You are cordially invited to join us for a celebration of love and joy" else m
      | none => "You are cordially invited to join us for a celebration of love and joy"
    let lines := wrap_text o.msgMeasure (contentWidth - scale 40) message.data
    let lineHeight : Int := ((fontSize + scale 10 : Nat) : Int)
    startY + lineHeight * lines.length + ((scale 30 : Nat) : Int)

/-- `CardGenerator.draw_event_details_card`: a fixed-height details panel;
returns the cursor after it; stage failure falls back to
`start_y + int(320 * 3.125)`. -/
def CardGenerator.draw_event_details_card (o : GenOracle) (startY : Int) : Int :=
  if o.detailsFail then startY + ((scale 320 : Nat) : Int)
  else startY + ((scale 280 : Nat) : Int) + ((scale 40 : Nat) : Int)

/-- `CardGenerator.draw_qr_section`: renders the guest's QR payload via
`generate_qr_code` (whose raise on an over-capacity payload is caught by
this stage's own `except`), frames it, and pastes it onto the canvas in
place — the canvas keeps its dimensions.  Returns the updated canvas and
cursor; any stage failure falls back to the unchanged canvas and
`start_y + int(450 * 3.125)`. -/
def CardGenerator.draw_qr_section (g : Guest) (e : Event) (o : GenOracle)
    (card : PILImage) (startY : Int) : PILImage × Int :=
  let qrSize := scale 320
  let fallback := (card, startY + ((scale 450 : Nat) : Int))
  if o.qrFail then fallback
  else
    match generate_qr_code g.generate_qr_data qrSize
        e.get_template_settings.colors.primary "#FFFFFF" o.qrPostEncodeFail with
    | Except.error _ => fallback
    | Except.ok qrImg =>
      let borderSize := scale 8
      let bordered := imageNew (qrSize + 2 * borderSize) (qrSize + 2 * borderSize)
        (hex_to_rgb e.get_template_settings.colors.primary)
      let bordered := imagePaste bordered qrImg
      let card2 := imagePaste card bordered
      let yOff := startY + (qrSize : Int) + ((scale 30 : Nat) : Int) + 2 * ((scale 40 : Nat) : Int)
      (card2, yOff + ((scale 20 : Nat) : Int))

/-- `CardGenerator.generate`: the fixed sequential pipeline over one
canvas.  The border, decorative-element and footer stages only draw in
place (their failures are caught inside the stages and never change the
canvas object), so they do not appear in the canvas threading.  A
top-level exception yields a blank white canvas of the card dimensions. -/
def CardGenerator.generate (g : Guest) (o : GenOracle) : PILImage :=
  if o.topFail then imageNew cardWidth cardHeight (255, 255, 255)
  else
    let e := g.event
    let card := CardGenerator.create_background e o
    let y := CardGenerator.draw_header o
    let y := CardGenerator.draw_guest_section o y
    let y := CardGenerator.draw_invitation_message g o y
    let y := CardGenerator.draw_event_details_card o y
    let r := CardGenerator.draw_qr_section g e o card y
    r.1

/-- A sample event record used to evaluate claims at concrete inputs. -/
def sampleEvent : Event :=
  { id := 5
    title := "Garden Party"
    venue := "Arusha"
    primary_color := "#7C3AED"
    secondary_color := "#F0E6FF"
    accent_color := "#852D63"
    background_color := "#FDF4FF"
    title_font := "Marckscript-Regular"
    name_font := "DancingScript-Bold"
    body_font := "PlayfairDisplay-Regular"
    show_border := true
    border_style := "rounded"
    show_qr_background := true
    show_decorations := true }

/-- A sample guest record used to evaluate claims at concrete inputs. -/
def sampleGuest : Guest :=
  { event := sampleEvent
    id := 42
    title := "Mr"
    full_name := "John Doe"
    qr_code := "abc-123"
    custom_message := none }

/-! Helper lemmas about the hexadecimal digit table and parsing. -/

theorem hexVal_mem_table {c : Char} {v : Nat} (h : hexVal? c = some v) :
    (c, v) ∈ hexDigitTable := by
  unfold hexVal? at h
  cases hf : hexDigitTable.find? (fun p => p.1 = c) with
  | none => rw [hf] at h; simp at h
  | some p =>
    rw [hf] at h
    have hm := List.mem_of_find?_eq_some hf
    have hp := List.find?_some hf
    obtain ⟨p1, p2⟩ := p
    simp at h hp
    rw [← hp, ← h]
    exact hm

theorem hexDigitTable_props :
    ∀ p ∈ hexDigitTable,
      isPyWS p.1 = false ∧ p.1 ≠ '#' ∧ p.2 < 16 ∧ toHexDigit p.2 = p.1.toLower := by
  decide

theorem hexVal_not_ws {c : Char} {v : Nat} (h : hexVal? c = some v) : isPyWS c = false :=
  (hexDigitTable_props _ (hexVal_mem_table h)).1

theorem hexVal_ne_hash {c : Char} {v : Nat} (h : hexVal? c = some v) : c ≠ '#' :=
  (hexDigitTable_props _ (hexVal_mem_table h)).2.1

theorem hexVal_lt_16 {c : Char} {v : Nat} (h : hexVal? c = some v) : v < 16 :=
  (hexDigitTable_props _ (hexVal_mem_table h)).2.2.1

theorem toHexDigit_hexVal {c : Char} {v : Nat} (h : hexVal? c = some v) :
    toHexDigit v = c.toLower :=
  (hexDigitTable_props _ (hexVal_mem_table h)).2.2.2

theorem lstripHash_cons {a : Char} (h : a ≠ '#') (l : List Char) :
    lstripHash (a :: l) = a :: l := by
  simp [lstripHash, h]

theorem pyStrip_cons_concat (a : Char) (mid : List Char) (z : Char)
    (ha : isPyWS a = false) (hz : isPyWS z = false) :
    pyStrip (a :: (mid ++ [z])) = a :: (mid ++ [z]) := by
  unfold pyStrip
  rw [List.dropWhile_cons, if_neg (by simp [ha])]
  rw [show (a :: (mid ++ [z])).reverse = z :: (mid.reverse ++ [a]) by simp]
  rw [List.dropWhile_cons, if_neg (by simp [hz])]
  rw [show (z :: (mid.reverse ++ [a])).reverse = a :: (mid ++ [z]) by simp]

/-! Claim C1. -/

/-- C1: `Guest.generate_qr_data` returns exactly
`"EVENT:" + event.id + "|GUEST:" + guest.id + "|CODE:" + qr_code` with no
other characters, and for `event.id = 5`, `guest.id = 42`,
`qr_code = "abc-123"` it yields exactly `"EVENT:5|GUEST:42|CODE:abc-123"`. -/
theorem C1_qr_payload_format :
    (∀ g : Guest,
      g.generate_qr_data =
        "EVENT:" ++ toString g.event.id ++ "|GUEST:" ++ toString g.id ++ "|CODE:" ++ g.qr_code) ∧
    sampleGuest.generate_qr_data = "EVENT:5|GUEST:42|CODE:abc-123" :=
  ⟨fun _ => rfl, by decide⟩

/-! Claim C3. -/

/-- C3 (code bug): `generate_qr_code` is claimed never to raise, returning a
blank `bgColor` canvas sized `size × size` when encoding fails.  The code
intends this (its handler comment says "Return a blank image as fallback"),
but when `qr.make` itself raises — an over-capacity payload, e.g. 4000
digits against the 3057-digit version-40/ECC-H limit — the local
`back_color` is still unbound in the `except` handler, so the handler
raises `UnboundLocalError` out of the function.  When the failure happens
after `back_color` is assigned, the blank fallback does work (second
conjunct). -/
theorem C3_qr_overflow_raises :
    (∀ post : Bool,
      generate_qr_code (String.mk (List.replicate 4000 '0')) 280 "#7C3AED" "#FFFFFF" post =
        Except.error
          "UnboundLocalError: local variable back_color referenced before assignment") ∧
    generate_qr_code "EVENT:5|GUEST:42|CODE:abc-123" 280 "#7C3AED" "#FFFFFF" true =
      Except.ok (imageNew 280 280 (255, 255, 255)) := by
  constructor
  · intro post
    have hall : (String.mk (List.replicate 4000 '0')).data.all qrNumericChar = true := by
      rw [show (String.mk (List.replicate 4000 '0')).data = List.replicate 4000 '0' from rfl]
      rw [List.all_eq_true]
      intro c hc
      rw [List.eq_of_mem_replicate hc]
      decide
    have hlen : (String.mk (List.replicate 4000 '0')).length = 4000 := by
      show (List.replicate 4000 '0').length = 4000
      rw [List.length_replicate]
    have hfit : qrFitsV40H (String.mk (List.replicate 4000 '0')) = false := by
      unfold qrFitsV40H
      rw [hall, hlen]
      decide
    unfold generate_qr_code
    rw [hfit]
    simp
  · rfl

/-! Claim C4. -/

theorem hexParse_other_length (cs : List Char) (h6 : cs.length ≠ 6) (h8 : cs.length ≠ 8) :
    hexParse cs = (124, 61, 237) := by
  rcases cs with _ | ⟨x1, _ | ⟨x2, _ | ⟨x3, _ | ⟨x4, _ | ⟨x5, _ | ⟨x6, _ | ⟨x7, _ | ⟨x8, _ | ⟨x9, t⟩⟩⟩⟩⟩⟩⟩⟩⟩
  · rfl
  · rfl
  · rfl
  · rfl
  · rfl
  · rfl
  · simp at h6
  · rfl
  · simp at h8
  · rfl

/-- C4 counterexample: `"aabbccZZ"` is an eight-character string containing
the non-hexadecimal characters `Z`, so the claim predicts the fallback
`(124, 61, 237)`; the code never examines the trailing two characters and
returns the parsed `(170, 187, 204)` instead. -/
theorem C4_hex_nonhex_counterexample :
    hex_to_rgb "aabbccZZ" = (170, 187, 204) ∧
    ¬ (∀ c ∈ "aabbccZZ".data, (hexVal? c).isSome = true) ∧
    hex_to_rgb "aabbccZZ" ≠ (124, 61, 237) := by
  refine ⟨by decide, by decide, by decide⟩

/-- C4 (amended): `hex_to_rgb` returns the fallback `(124, 61, 237)` when
the length after normalisation (strip `#` and whitespace, double a
three-character form) is neither 6 nor 8, and when one of the three
examined two-character groups fails Python's `int(_, 16)`; for a valid
eight-character input the alpha channel is ignored.  Non-hex characters
are only detected in examined positions and forms: the last two characters
of an eight-character input are never looked at, and two-character slices
that Python's `int` accepts (a sign or one-sided whitespace next to a hex
digit) parse instead of falling back. -/
theorem C4_hex_fallback_amended :
    (∀ s : String, (hexNormalize s).length ≠ 6 → (hexNormalize s).length ≠ 8 →
      hex_to_rgb s = (124, 61, 237)) ∧
    (∀ (a b c d e f : Char) (rest : List Char), (rest = [] ∨ rest.length = 2) →
      (pyInt16Pair? a b = none ∨ pyInt16Pair? c d = none ∨ pyInt16Pair? e f = none) →
      hexParse (a :: b :: c :: d :: e :: f :: rest) = (124, 61, 237)) ∧
    (∀ (a b c d e f g h : Char) (va vb vc vd ve vf : Nat),
      hexVal? a = some va → hexVal? b = some vb → hexVal? c = some vc →
      hexVal? d = some vd → hexVal? e = some ve → hexVal? f = some vf →
      isPyWS h = false →
      hex_to_rgb (String.mk [a, b, c, d, e, f, g, h]) =
        (16 * (va : Int) + (vb : Int), 16 * (vc : Int) + (vd : Int),
          16 * (ve : Int) + (vf : Int)) ∧
      hex_to_rgb (String.mk [a, b, c, d, e, f]) =
        (16 * (va : Int) + (vb : Int), 16 * (vc : Int) + (vd : Int),
          16 * (ve : Int) + (vf : Int))) := by
  refine ⟨?_, ?_, ?_⟩
  · intro s h6 h8
    unfold hex_to_rgb
    exact hexParse_other_length _ h6 h8
  · intro a b c d e f rest hrest hdis
    have hshape : rest = [] ∨ ∃ x y, rest = [x, y] := by
      rcases hrest with h | h
      · exact Or.inl h
      · rcases rest with _ | ⟨x, _ | ⟨y, _ | ⟨z, t⟩⟩⟩ <;> simp_all
    rcases hshape with h | ⟨x, y, h⟩ <;> subst h <;>
      cases hab : pyInt16Pair? a b <;> cases hcd : pyInt16Pair? c d <;>
        cases hef : pyInt16Pair? e f <;> simp_all [hexParse]
  · intro a b c d e f g h va vb vc vd ve vf hva hvb hvc hvd hve hvf hwsh
    have hwa := hexVal_not_ws hva
    have hwf := hexVal_not_ws hvf
    have hha := hexVal_ne_hash hva
    constructor
    · have hnorm : hexNormalize (String.mk [a, b, c, d, e, f, g, h]) =
          [a, b, c, d, e, f, g, h] := by
        unfold hexNormalize
        have hls : lstripHash (String.mk [a, b, c, d, e, f, g, h]).data =
            [a, b, c, d, e, f, g, h] := lstripHash_cons hha _
        rw [hls]
        have hps : pyStrip [a, b, c, d, e, f, g, h] = [a, b, c, d, e, f, g, h] :=
          pyStrip_cons_concat a [b, c, d, e, f, g] h hwa hwsh
        rw [hps]
        simp
      unfold hex_to_rgb
      rw [hnorm]
      simp [hexParse, pyInt16Pair?, hva, hvb, hvc, hvd, hve, hvf]
    · have hnorm : hexNormalize (String.mk [a, b, c, d, e, f]) = [a, b, c, d, e, f] := by
        unfold hexNormalize
        have hls : lstripHash (String.mk [a, b, c, d, e, f]).data =
            [a, b, c, d, e, f] := lstripHash_cons hha _
        rw [hls]
        have hps : pyStrip [a, b, c, d, e, f] = [a, b, c, d, e, f] :=
          pyStrip_cons_concat a [b, c, d, e] f hwa hwf
        rw [hps]
        simp
      unfold hex_to_rgb
      rw [hnorm]
      simp [hexParse, pyInt16Pair?, hva, hvb, hvc, hvd, hve, hvf]

/-- C4 witness: the amended theorem applied at concrete inputs — a
wrong-length string, a six-character string with an unparseable middle
pair, and the eight-character `"aabbccZZ"` whose alpha slot is ignored. -/
theorem C4_hex_fallback_amended_witness :
    hex_to_rgb "xyzw" = (124, 61, 237) ∧
    hexParse ['a', 'a', 'Z', 'Z', 'a', 'a'] = (124, 61, 237) ∧
    hex_to_rgb "aabbccZZ" = (170, 187, 204) := by
  refine ⟨C4_hex_fallback_amended.1 "xyzw" (by decide) (by decide), ?_, ?_⟩
  · exact C4_hex_fallback_amended.2.1 'a' 'a' 'Z' 'Z' 'a' 'a' []
      (Or.inl rfl) (Or.inr (Or.inl (by decide)))
  · have hres := (C4_hex_fallback_amended.2.2 'a' 'a' 'b' 'b' 'c' 'c' 'Z' 'Z'
      10 10 11 11 12 12 rfl rfl rfl rfl rfl rfl (by decide)).1
    simpa using hres

/-! Claim C7. -/

theorem shrinkToFit_exists (widthOf : Int → Nat) (maxW : Nat) :
    ∀ (fuel : Nat) (size : Int), ∃ k : Nat, k ≤ fuel ∧
      shrinkToFit widthOf maxW fuel size = size - 2 * k ∧
      (widthOf (shrinkToFit widthOf maxW fuel size) ≤ maxW ∨ k = fuel) := by
  intro fuel
  induction fuel with
  | zero =>
    intro size
    exact ⟨0, Nat.le_refl 0, by simp [shrinkToFit], Or.inr rfl⟩
  | succ n ih =>
    intro size
    by_cases hw : widthOf size > maxW
    · obtain ⟨k, hk, heq, hfit⟩ := ih (size - 2)
      have hstep : shrinkToFit widthOf maxW (n + 1) size = shrinkToFit widthOf maxW n (size - 2) := by
        simp [shrinkToFit, hw]
      refine ⟨k + 1, by omega, ?_, ?_⟩
      · rw [hstep, heq]; push_cast; ring
      · rcases hfit with hfit | hfit
        · exact Or.inl (by rw [hstep]; exact hfit)
        · exact Or.inr (by omega)
    · have hstep : shrinkToFit widthOf maxW (n + 1) size = size := by
        simp [shrinkToFit, hw]
      exact ⟨0, Nat.zero_le _, by rw [hstep]; ring, Or.inl (by rw [hstep]; omega)⟩

/-- C7: both shrink-to-fit loops (event title in `draw_header`, guest name
in `draw_guest_section`) terminate within their attempt budgets (10 and 15
attempts, each decreasing the font size by 2): the loop result equals the
initial size minus twice the number of attempts used, which is at most the
budget; if the loop stops early the last width measured fits the budget,
otherwise the last size tried is used; the final size never exceeds the
initial one, and the concrete loops stay within `[180, 200]` and
`[195, 225]` respectively (never raising is totality of the loop, which
the model witnesses by being a total function). -/
theorem C7_shrink_to_fit_bounds :
    ∀ (widthOf : Int → Nat) (maxW : Nat) (fuel : Nat) (size : Int),
      (∃ k : Nat, k ≤ fuel ∧
        shrinkToFit widthOf maxW fuel size = size - 2 * k ∧
        (widthOf (shrinkToFit widthOf maxW fuel size) ≤ maxW ∨ k = fuel)) ∧
      shrinkToFit widthOf maxW fuel size ≤ size ∧
      size - 2 * fuel ≤ shrinkToFit widthOf maxW fuel size ∧
      180 ≤ headerTitleFontSize widthOf ∧ headerTitleFontSize widthOf ≤ 200 ∧
      195 ≤ guestNameFontSize widthOf ∧ guestNameFontSize widthOf ≤ 225 := by
  intro widthOf maxW fuel size
  obtain ⟨k, hk, heq, hfit⟩ := shrinkToFit_exists widthOf maxW fuel size
  have hscale64 : ((scale 64 : Nat) : Int) = 200 := by decide
  have hscale72 : ((scale 72 : Nat) : Int) = 225 := by decide
  obtain ⟨kh, hkh, heqh, _⟩ := shrinkToFit_exists widthOf contentWidth 10 ((scale 64 : Nat) : Int)
  obtain ⟨kg, hkg, heqg, _⟩ :=
    shrinkToFit_exists widthOf (contentWidth - 100) 15 ((scale 72 : Nat) : Int)
  have hh : headerTitleFontSize widthOf = ((scale 64 : Nat) : Int) - 2 * kh := heqh
  have hg : guestNameFontSize widthOf = ((scale 72 : Nat) : Int) - 2 * kg := heqg
  exact ⟨⟨k, hk, heq, hfit⟩, by omega, by omega, by omega, by omega, by omega, by omega⟩

/-! Claim C8. -/

/-- C8 counterexample: the code sanitises only the space and the forward
slash; a full name containing a tab keeps the tab, while the claim (which
asks for all whitespace and path separators to be replaced) would produce
an underscore. -/
theorem C8_filename_tab_counterexample :
    derive_filename 7 9 (String.mk ['a', '\t', 'b']) ≠
      derive_filename_spec 7 9 (String.mk ['a', '\t', 'b']) ∧
    derive_filename 7 9 (String.mk ['a', '\t', 'b']) =
      "invitation_7_9_a\tb.png" := by
  refine ⟨by decide, by decide⟩

/-- C8 (amended): the derived invitation filename is
`"invitation_<eventId>_<guestId>_<sanitizedName>.png"` where the sanitised
name replaces exactly the space character and the forward slash by
underscores (not other whitespace and not the backslash), preserving all
other characters; the two successive `replace` calls amount to one
character-wise map, and the concrete example
`derive_filename 7 9 "Jane O'Brien Smith"` yields
`"invitation_7_9_Jane_O'Brien_Smith.png"` (apostrophe preserved, spaces
replaced). -/
theorem C8_filename_amended :
    (∀ (event_id guest_id : Nat) (full_name : String),
      derive_filename event_id guest_id full_name =
        "invitation_" ++ toString event_id ++ "_" ++ toString guest_id ++ "_" ++
          String.mk (full_name.data.map (fun c => if c = ' ' || c = '/' then '_' else c)) ++
          ".png") ∧
    derive_filename 7 9 "Jane O\x27Brien Smith" =
      "invitation_7_9_Jane_O\x27Brien_Smith.png" := by
  constructor
  · intro eid gid name
    unfold derive_filename pyReplaceChar
    rw [List.map_map]
    have hpt : ∀ c : Char,
        ((fun c => if c = '/' then '_' else c) ∘ fun c => if c = ' ' then '_' else c) c =
          if c = ' ' || c = '/' then '_' else c := by
      intro c
      by_cases h1 : c = ' '
      · subst h1; decide
      · by_cases h2 : c = '/'
        · subst h2; decide
        · simp [h1, h2]
    rw [List.map_congr_left (fun c _ => hpt c)]
  · decide

/-! Claim C5. -/

theorem processGuest_snd_const (name : String) (st : GuestStep) (succ : Nat) :
    (processGuest name st succ).2 = (processGuest name st 0).2 := by
  cases st <;> rfl

theorem batch_foldl_snd (guests : List (String × GuestStep)) :
    ∀ (s0 : Nat) (acc : List BatchEntry),
      (guests.foldl
        (fun (acc : Nat × List BatchEntry) gp =>
          let r := processGuest gp.1 gp.2 acc.1
          (r.1, acc.2 ++ [r.2]))
        (s0, acc)).2 =
      acc ++ guests.map (fun gp => (processGuest gp.1 gp.2 0).2) := by
  induction guests with
  | nil => intro s0 acc; simp
  | cons gp gs ih =>
    intro s0 acc
    rw [List.foldl_cons, List.map_cons]
    show (gs.foldl _ ((processGuest gp.1 gp.2 s0).1, acc ++ [(processGuest gp.1 gp.2 s0).2])).2 = _
    rw [ih]
    rw [processGuest_snd_const]
    simp

theorem batch_foldl_fst (guests : List (String × GuestStep)) :
    ∀ (s0 : Nat) (acc : List BatchEntry),
      (guests.foldl
        (fun (acc : Nat × List BatchEntry) gp =>
          let r := processGuest gp.1 gp.2 acc.1
          (r.1, acc.2 ++ [r.2]))
        (s0, acc)).1 ≤ s0 + guests.length := by
  induction guests with
  | nil => intro s0 acc; simp
  | cons gp gs ih =>
    intro s0 acc
    rw [List.foldl_cons]
    have hstep : (processGuest gp.1 gp.2 s0).1 ≤ s0 + 1 := by
      cases gp.2 <;> simp [processGuest]
    calc (gs.foldl _ ((processGuest gp.1 gp.2 s0).1, acc ++ [(processGuest gp.1 gp.2 s0).2])).1
        ≤ (processGuest gp.1 gp.2 s0).1 + gs.length := ih _ _
      _ ≤ s0 + (gp :: gs).length := by simp [List.length_cons]; omega

/-- C5 counterexample: a guest whose loop-body exception carries an empty
message (`str(e) = ""`, e.g. `raise Exception()`) produces an `error`
entry whose error detail is the empty string — the claim's requirement
that every failed/error entry carries a non-empty error detail fails. -/
theorem C5_empty_error_detail_counterexample :
    (generate_cards_for_event [("G1", GuestStep.raises "")]).results =
      [{ guest := "G1", status := "error", card_url := none, error := some "" }] ∧
    (generate_cards_for_event [("G1", GuestStep.raises "")]).total = 1 ∧
    (generate_cards_for_event [("G1", GuestStep.raises "")]).failed = 1 ∧
    ("" : String).data = [] := by
  refine ⟨by decide, by decide, by decide, rfl⟩

/-- C5 (amended): batch generation processes the guests sequentially; a
single guest's failure is captured in that guest's result entry and does
not abort the remaining iteration (the result list is the pointwise image
of the guest list); the summary satisfies `total` = number of guests and
`failed = total - succeeded`; every entry's status is one of
success/failed/error; a `failed` entry carries the fixed non-empty detail
`"Generation failed"`, while an `error` entry carries the exception text
truncated to 100 characters — which is empty when the exception text is
empty; a `success` entry carries no error detail. -/
theorem C5_batch_summary_amended :
    ∀ guests : List (String × GuestStep),
      (generate_cards_for_event guests).total = guests.length ∧
      (generate_cards_for_event guests).failed =
        (generate_cards_for_event guests).total - (generate_cards_for_event guests).success ∧
      (generate_cards_for_event guests).success ≤ (generate_cards_for_event guests).total ∧
      (generate_cards_for_event guests).results =
        guests.map (fun gp => (processGuest gp.1 gp.2 0).2) ∧
      (∀ entry ∈ (generate_cards_for_event guests).results,
        (entry.status = "success" ∨ entry.status = "failed" ∨ entry.status = "error") ∧
        (entry.status = "failed" → entry.error = some "Generation failed") ∧
        (entry.status = "error" →
          ∃ msg : String, entry.error = some (String.mk (msg.data.take 100))) ∧
        (entry.status = "success" → entry.error = none)) := by
  intro guests
  have hres : (generate_cards_for_event guests).results =
      guests.map (fun gp => (processGuest gp.1 gp.2 0).2) := by
    show (guests.foldl _ (0, ([] : List BatchEntry))).2 = _
    rw [batch_foldl_snd]
    simp
  have hsucc : (generate_cards_for_event guests).success ≤ guests.length := by
    show (guests.foldl _ (0, ([] : List BatchEntry))).1 ≤ guests.length
    have h := batch_foldl_fst guests 0 []
    simpa using h
  refine ⟨rfl, rfl, hsucc, hres, ?_⟩
  intro entry hmem
  rw [hres] at hmem
  obtain ⟨gp, hgp, hent⟩ := List.mem_map.1 hmem
  subst hent
  cases hst : gp.2 with
  | raises msg =>
    refine ⟨Or.inr (Or.inr rfl), ?_, ?_, ?_⟩
    · intro hco; simp [processGuest] at hco
    · intro _; exact ⟨msg, rfl⟩
    · intro hco; simp [processGuest] at hco
  | returnsFalse =>
    refine ⟨Or.inr (Or.inl rfl), ?_, ?_, ?_⟩
    · intro _; rfl
    · intro hco; simp [processGuest] at hco
    · intro hco; simp [processGuest] at hco
  | returnsTrue url =>
    refine ⟨Or.inl rfl, ?_, ?_, ?_⟩
    · intro hco; simp [processGuest] at hco
    · intro hco; simp [processGuest] at hco
    · intro _; rfl
  | returnsTrueThenRaises msg =>
    refine ⟨Or.inr (Or.inr rfl), ?_, ?_, ?_⟩
    · intro hco; simp [processGuest] at hco
    · intro _; exact ⟨msg, rfl⟩
    · intro hco; simp [processGuest] at hco

/-- C5 witness: the amended theorem applied to a concrete two-guest batch,
including the per-entry facts for the failed guest. -/
theorem C5_batch_summary_amended_witness :
    (generate_cards_for_event
      [("A", GuestStep.returnsTrue none), ("B", GuestStep.returnsFalse)]).total = 2 ∧
    ({ guest := "B", status := "failed", card_url := none,
       error := some "Generation failed" } : BatchEntry).error = some "Generation failed" := by
  refine ⟨(C5_batch_summary_amended _).1, ?_⟩
  exact ((C5_batch_summary_amended
    [("A", GuestStep.returnsTrue none), ("B", GuestStep.returnsFalse)]).2.2.2.2
    { guest := "B", status := "failed", card_url := none, error := some "Generation failed" }
    (by decide)).2.1 (by decide)

/-! Claim C2. -/

theorem create_background_dims (e : Event) (o : GenOracle) :
    (CardGenerator.create_background e o).width = cardWidth ∧
    (CardGenerator.create_background e o).height = cardHeight := by
  unfold CardGenerator.create_background
  by_cases hb : o.bgFail
  · simp [hb, imageNew]
  · cases hbg : o.bgImage with
    | none =>
      simp [hb, hbg, imageNew, imagePaste, Event.get_template_settings]
    | some bg =>
      simp [hb, hbg, imageNew, imagePaste, imageResize, alphaComposite,
        Event.get_template_settings]

theorem draw_qr_section_dims (g : Guest) (e : Event) (o : GenOracle)
    (card : PILImage) (startY : Int) :
    ((CardGenerator.draw_qr_section g e o card startY).1).width = card.width ∧
    ((CardGenerator.draw_qr_section g e o card startY).1).height = card.height := by
  unfold CardGenerator.draw_qr_section
  by_cases hq : o.qrFail
  · simp [hq]
  · simp only [hq, Bool.false_eq_true, if_false]
    cases hgen : generate_qr_code g.generate_qr_data (scale 320)
        (e.get_template_settings).colors.primary "#FFFFFF" o.qrPostEncodeFail with
    | error msg => simp [hgen]
    | ok qrImg => simp [hgen, imagePaste]

/-- C2: `CardGenerator.generate` returns an image of exactly 1500 by 2100
pixels (5 by 7 inches at 300 DPI) for every guest, theme and failure
oracle — on the successful pipeline path, on every per-stage fallback
path, and on the blank-white-canvas path taken when an exception escapes
the pipeline. -/
theorem C2_dimension_invariant :
    ∀ (g : Guest) (o : GenOracle),
      (CardGenerator.generate g o).width = 1500 ∧
      (CardGenerator.generate g o).height = 2100 := by
  intro g o
  have hw : cardWidth = 1500 := by decide
  have hh : cardHeight = 2100 := by decide
  unfold CardGenerator.generate
  by_cases ht : o.topFail
  · simp [ht, imageNew, hw, hh]
  · simp only [ht, Bool.false_eq_true, if_false]
    obtain ⟨hqw, hqh⟩ := draw_qr_section_dims g g.event o
      (CardGenerator.create_background g.event o)
      (CardGenerator.draw_event_details_card o
        (CardGenerator.draw_invitation_message g o
          (CardGenerator.draw_guest_section o (CardGenerator.draw_header o))))
    obtain ⟨hbw, hbh⟩ := create_background_dims g.event o
    rw [hqw, hqh, hbw, hbh, hw, hh]
    exact ⟨rfl, rfl⟩

/-! Helper lemmas for the word-wrap development (claims C6 and C10). -/

theorem wrapWords_nil (measure : List Char → Nat) (maxW : Nat) (line : List Char) :
    wrapWords measure maxW line [] = if line.isEmpty then [] else [pyStrip line] := rfl

theorem wrapWords_cons (measure : List Char → Nat) (maxW : Nat) (line w : List Char)
    (ws : List (List Char)) :
    wrapWords measure maxW line (w :: ws) =
      if measure (line ++ w ++ [' ']) ≤ maxW then
        wrapWords measure maxW (line ++ w ++ [' ']) ws
      else if line.isEmpty then pyStrip w :: wrapWords measure maxW [] ws
      else
        pyStrip line ::
          (if measure (w ++ [' ']) ≤ maxW then wrapWords measure maxW (w ++ [' ']) ws
           else pyStrip w :: wrapWords measure maxW [] ws) := rfl

theorem groupGreedy_nil (measure : List Char → Nat) (maxW : Nat) (cur : List (List Char)) :
    groupGreedy measure maxW cur [] = if cur.isEmpty then [] else [cur.reverse] := rfl

theorem groupGreedy_cons (measure : List Char → Nat) (maxW : Nat) (cur : List (List Char))
    (w : List Char) (ws : List (List Char)) :
    groupGreedy measure maxW cur (w :: ws) =
      if measure (sepJoin (cur.reverse ++ [w])) ≤ maxW then
        groupGreedy measure maxW (w :: cur) ws
      else if cur.isEmpty then [w] :: groupGreedy measure maxW [] ws
      else
        cur.reverse ::
          (if measure (sepJoin [w]) ≤ maxW then groupGreedy measure maxW [w] ws
           else [w] :: groupGreedy measure maxW [] ws) := rfl

theorem splitWSAux_cons (cur : List Char) (c : Char) (cs : List Char) :
    splitWSAux cur (c :: cs) =
      if isPyWS c then
        (if cur.isEmpty then splitWSAux [] cs else cur.reverse :: splitWSAux [] cs)
      else splitWSAux (c :: cur) cs := rfl

theorem dropWhile_all_false (p : Char → Bool) (l : List Char)
    (h : ∀ c ∈ l, p c = false) : l.dropWhile p = l := by
  cases l with
  | nil => rfl
  | cons a t =>
    have ha : p a = false := h a (List.mem_cons_self a t)
    rw [List.dropWhile_cons, if_neg (by simp [ha])]

theorem pyStrip_clean (w : List Char) (h : ∀ c ∈ w, isPyWS c = false) : pyStrip w = w := by
  unfold pyStrip
  rw [dropWhile_all_false _ _ h]
  rw [dropWhile_all_false _ _ (fun c hc => h c (List.mem_reverse.1 hc))]
  exact List.reverse_reverse w

theorem sepJoin_cons (x : List Char) (xs : List (List Char)) :
    sepJoin (x :: xs) = (x ++ [' ']) ++ sepJoin xs := by
  simp [sepJoin]

theorem sepJoin_append (xs ys : List (List Char)) :
    sepJoin (xs ++ ys) = sepJoin xs ++ sepJoin ys := by
  simp [sepJoin]

theorem sepJoin_singleton (w : List Char) : sepJoin [w] = w ++ [' '] := by
  simp [sepJoin]

theorem sepJoin_eq_nil_iff (l : List (List Char)) : sepJoin l = [] ↔ l = [] := by
  cases l with
  | nil => simp [sepJoin]
  | cons x xs => simp [sepJoin_cons]

theorem joinSp_cons_eq (w : List Char) (ws : List (List Char)) :
    ∃ rest, joinSp (w :: ws) = w ++ rest := by
  cases ws with
  | nil => exact ⟨[], by simp [joinSp]⟩
  | cons x t => exact ⟨[' '] ++ joinSp (x :: t), by simp [joinSp, List.append_assoc]⟩

theorem joinSp_ne_nil (w : List Char) (ws : List (List Char)) (hw : w ≠ []) :
    joinSp (w :: ws) ≠ [] := by
  obtain ⟨rest, hj⟩ := joinSp_cons_eq w ws
  rw [hj]
  simp [hw]

theorem sepJoin_eq_joinSp_append (g : List (List Char)) (hg : g ≠ []) :
    sepJoin g = joinSp g ++ [' '] := by
  induction g with
  | nil => exact absurd rfl hg
  | cons w t ih =>
    cases t with
    | nil => simp [sepJoin_cons, sepJoin, joinSp]
    | cons x t2 =>
      rw [sepJoin_cons, ih (by simp)]
      rw [show joinSp (w :: x :: t2) = w ++ [' '] ++ joinSp (x :: t2) from rfl]
      simp [List.append_assoc]

theorem pyStrip_append_space (xs : List Char) : pyStrip (xs ++ [' ']) = pyStrip xs := by
  unfold pyStrip
  rw [List.dropWhile_append]
  by_cases hx : (xs.dropWhile isPyWS).isEmpty
  · rw [if_pos hx]
    rw [List.isEmpty_iff.1 hx]
    rfl
  · rw [if_neg hx]
    rw [List.reverse_append]
    rw [show ([' '] : List Char).reverse = [' '] from rfl]
    rw [show ([' '] : List Char) ++ (xs.dropWhile isPyWS).reverse =
      ' ' :: (xs.dropWhile isPyWS).reverse from rfl]
    rw [List.dropWhile_cons, if_pos (by decide)]

theorem joinSp_last (g : List (List Char)) (hg : g ≠ []) (hc : ∀ w ∈ g, WordClean w) :
    ∃ c t, (joinSp g).reverse = c :: t ∧ isPyWS c = false := by
  induction g with
  | nil => exact absurd rfl hg
  | cons w ws ih =>
    cases ws with
    | nil =>
      have hw := hc w (List.mem_cons_self w [])
      rcases hrev : w.reverse with _ | ⟨c, t⟩
      · exact absurd (by simpa [List.reverse_eq_nil_iff] using hrev) hw.1
      · refine ⟨c, t, ?_, ?_⟩
        · show (joinSp [w]).reverse = c :: t
          simpa [joinSp] using hrev
        · have hcm : c ∈ w.reverse := by rw [hrev]; exact List.mem_cons_self c t
          exact hw.2 c (List.mem_reverse.1 hcm)
    | cons x t2 =>
      obtain ⟨c, t, hrev, hcws⟩ := ih (by simp)
        (fun v hv => hc v (List.mem_cons_of_mem _ hv))
      refine ⟨c, t ++ (w ++ [' ']).reverse, ?_, hcws⟩
      rw [show joinSp (w :: x :: t2) = (w ++ [' ']) ++ joinSp (x :: t2) by
        simp [joinSp, List.append_assoc]]
      rw [List.reverse_append, hrev]
      rfl

theorem pyStrip_joinSp (g : List (List Char)) (hg : g ≠ []) (hc : ∀ w ∈ g, WordClean w) :
    pyStrip (joinSp g) = joinSp g := by
  obtain ⟨w, ws, rfl⟩ : ∃ w ws, g = w :: ws := by
    cases g with
    | nil => exact absurd rfl hg
    | cons w ws => exact ⟨w, ws, rfl⟩
  have hw := hc w (List.mem_cons_self w ws)
  obtain ⟨rest, hjoin⟩ := joinSp_cons_eq w ws
  obtain ⟨cl, tl, hrev, hclws⟩ := joinSp_last (w :: ws) (by simp) hc
  obtain ⟨c0, w0, rfl⟩ : ∃ c0 w0, w = c0 :: w0 := by
    cases w with
    | nil => exact absurd rfl hw.1
    | cons c0 w0 => exact ⟨c0, w0, rfl⟩
  have hc0 : isPyWS c0 = false := hw.2 c0 (List.mem_cons_self c0 w0)
  have h1 : List.dropWhile isPyWS (joinSp ((c0 :: w0) :: ws)) = joinSp ((c0 :: w0) :: ws) := by
    rw [hjoin, List.cons_append, List.dropWhile_cons, if_neg (by simp [hc0])]
  have h2 : List.dropWhile isPyWS (joinSp ((c0 :: w0) :: ws)).reverse =
      (joinSp ((c0 :: w0) :: ws)).reverse := by
    rw [hrev, List.dropWhile_cons, if_neg (by simp [hclws])]
  unfold pyStrip
  rw [h1, h2, List.reverse_reverse]

theorem pyStrip_sepJoin (g : List (List Char)) (hg : g ≠ []) (hc : ∀ w ∈ g, WordClean w) :
    pyStrip (sepJoin g) = joinSp g := by
  rw [sepJoin_eq_joinSp_append g hg, pyStrip_append_space, pyStrip_joinSp g hg hc]

theorem splitWSAux_clean : ∀ (cs cur : List Char), (∀ c ∈ cur, isPyWS c = false) →
    ∀ w ∈ splitWSAux cur cs, WordClean w := by
  intro cs
  induction cs with
  | nil =>
    intro cur hcur w hw
    rw [show splitWSAux cur [] = if cur.isEmpty then [] else [cur.reverse] from rfl] at hw
    by_cases hce : cur.isEmpty
    · rw [if_pos hce] at hw; simp at hw
    · rw [if_neg hce] at hw
      simp only [List.mem_singleton] at hw
      subst hw
      refine ⟨by simpa [List.reverse_eq_nil_iff] using (List.isEmpty_iff.not.1 hce :), ?_⟩
      exact fun c hcm => hcur c (List.mem_reverse.1 hcm)
  | cons c cs2 ih =>
    intro cur hcur w hw
    rw [splitWSAux_cons] at hw
    by_cases hws : isPyWS c
    · rw [if_pos hws] at hw
      by_cases hce : cur.isEmpty
      · rw [if_pos hce] at hw
        exact ih [] (by intro x hx; simp at hx) w hw
      · rw [if_neg hce] at hw
        rcases List.mem_cons.1 hw with hw | hw
        · subst hw
          refine ⟨by simpa [List.reverse_eq_nil_iff] using (List.isEmpty_iff.not.1 hce :), ?_⟩
          exact fun x hx => hcur x (List.mem_reverse.1 hx)
        · exact ih [] (by intro x hx; simp at hx) w hw
    · rw [if_neg hws] at hw
      refine ih (c :: cur) ?_ w hw
      intro x hx
      rcases List.mem_cons.1 hx with hx | hx
      · subst hx; simpa using hws
      · exact hcur x hx

theorem pySplit_clean (cs : List Char) : ∀ w ∈ pySplit cs, WordClean w :=
  splitWSAux_clean cs [] (by intro c hc; simp at hc)

theorem splitWSAux_nonws_prefix : ∀ (w cur cs : List Char),
    (∀ c ∈ w, isPyWS c = false) →
    splitWSAux cur (w ++ cs) = splitWSAux (w.reverse ++ cur) cs := by
  intro w
  induction w with
  | nil => intro cur cs _; simp
  | cons c t ih =>
    intro cur cs hcl
    have hc : isPyWS c = false := hcl c (List.mem_cons_self c t)
    have ht : ∀ x ∈ t, isPyWS x = false := fun x hx => hcl x (List.mem_cons_of_mem _ hx)
    show splitWSAux cur (c :: (t ++ cs)) = _
    rw [splitWSAux_cons, if_neg (by simp [hc])]
    rw [ih (c :: cur) cs ht]
    congr 1
    simp [List.reverse_cons, List.append_assoc]

theorem pySplit_joinSp (g : List (List Char)) (hc : ∀ w ∈ g, WordClean w) :
    pySplit (joinSp g) = g := by
  induction g with
  | nil => rfl
  | cons w t ih =>
    have hw := hc w (List.mem_cons_self w t)
    have hwrevne : w.reverse ≠ [] := by simpa [List.reverse_eq_nil_iff] using hw.1
    cases t with
    | nil =>
      show splitWSAux [] (joinSp [w]) = [w]
      rw [show joinSp [w] = w from rfl]
      calc splitWSAux [] w = splitWSAux [] (w ++ []) := by rw [List.append_nil]
        _ = splitWSAux (w.reverse ++ []) [] := splitWSAux_nonws_prefix w [] [] hw.2
        _ = [w] := by
            rw [List.append_nil]
            rw [show splitWSAux w.reverse [] =
              if w.reverse.isEmpty then [] else [w.reverse.reverse] from rfl]
            rw [if_neg (by simpa [List.isEmpty_iff] using hwrevne)]
            rw [List.reverse_reverse]
    | cons x t2 =>
      have hj : joinSp (w :: x :: t2) = w ++ (' ' :: joinSp (x :: t2)) := by
        rw [show joinSp (w :: x :: t2) = w ++ [' '] ++ joinSp (x :: t2) from rfl]
        simp [List.append_assoc]
      show splitWSAux [] (joinSp (w :: x :: t2)) = w :: x :: t2
      rw [hj, splitWSAux_nonws_prefix w [] (' ' :: joinSp (x :: t2)) hw.2]
      rw [List.append_nil]
      rw [splitWSAux_cons, if_pos (by decide)]
      rw [if_neg (by simpa [List.isEmpty_iff] using hwrevne)]
      rw [List.reverse_reverse]
      exact congrArg (fun l => w :: l) (ih (fun v hv => hc v (List.mem_cons_of_mem _ hv)))

theorem sepJoin_guard_eq (cur : List (List Char)) (w : List Char) :
    sepJoin (cur.reverse ++ [w]) = sepJoin cur.reverse ++ w ++ [' '] := by
  rw [sepJoin_append, sepJoin_singleton, ← List.append_assoc]

theorem wrapWords_eq_groupGreedy (measure : List Char → Nat) (maxW : Nat) :
    ∀ (ws cur : List (List Char)),
      (∀ w ∈ cur, WordClean w) → (∀ w ∈ ws, WordClean w) →
      wrapWords measure maxW (sepJoin cur.reverse) ws =
        (groupGreedy measure maxW cur ws).map joinSp := by
  intro ws
  induction ws with
  | nil =>
    intro cur hcur _
    rw [wrapWords_nil, groupGreedy_nil]
    cases cur with
    | nil => rfl
    | cons c t =>
      have hrevne : (c :: t).reverse ≠ [] := by simp
      have hclean : ∀ v ∈ (c :: t).reverse, WordClean v :=
        fun v hv => hcur v (List.mem_reverse.1 hv)
      have hsne : sepJoin ((c :: t).reverse) ≠ [] := by
        intro h
        exact hrevne ((sepJoin_eq_nil_iff _).1 h)
      have hLne : ¬((sepJoin ((c :: t).reverse)).isEmpty = true) := by
        simpa [List.isEmpty_iff] using hsne
      have hRne : ¬(((c :: t) : List (List Char)).isEmpty = true) := by simp
      rw [if_neg hLne, if_neg hRne, List.map_singleton]
      rw [pyStrip_sepJoin _ hrevne hclean]
  | cons w ws2 ih =>
    intro cur hcur hws
    have hw : WordClean w := hws w (List.mem_cons_self w ws2)
    have hws2 : ∀ v ∈ ws2, WordClean v := fun v hv => hws v (List.mem_cons_of_mem _ hv)
    have hwcur : ∀ v ∈ w :: cur, WordClean v := by
      intro v hv
      rcases List.mem_cons.1 hv with hv | hv
      · subst hv; exact hw
      · exact hcur v hv
    have ihnil := ih [] (by intro v hv; simp at hv) hws2
    rw [show (([] : List (List Char))).reverse = [] from rfl,
      show sepJoin [] = [] from rfl] at ihnil
    have ihsingle := ih [w] (by
      intro v hv
      rcases List.mem_cons.1 hv with hv | hv
      · subst hv; exact hw
      · simp at hv) hws2
    rw [show (([w] : List (List Char))).reverse = [w] from rfl, sepJoin_singleton] at ihsingle
    rw [wrapWords_cons, groupGreedy_cons, sepJoin_guard_eq cur w, sepJoin_singleton]
    by_cases hg1 : measure (sepJoin cur.reverse ++ w ++ [' ']) ≤ maxW
    · rw [if_pos hg1, if_pos hg1]
      have hres := ih (w :: cur) hwcur hws2
      rw [List.reverse_cons, sepJoin_guard_eq cur w] at hres
      exact hres
    · rw [if_neg hg1, if_neg hg1]
      cases cur with
      | nil =>
        have h1 : (sepJoin (([] : List (List Char)).reverse)).isEmpty = true := rfl
        have h2 : (([] : List (List Char))).isEmpty = true := rfl
        rw [if_pos h1, if_pos h2]
        rw [List.map_cons, show joinSp [w] = w from rfl, pyStrip_clean w hw.2]
        exact congrArg (fun l => w :: l) ihnil
      | cons c t =>
        have hrevne : (c :: t).reverse ≠ [] := by simp
        have hclean : ∀ v ∈ (c :: t).reverse, WordClean v :=
          fun v hv => hcur v (List.mem_reverse.1 hv)
        have hsne : sepJoin ((c :: t).reverse) ≠ [] := by
          intro h
          exact hrevne ((sepJoin_eq_nil_iff _).1 h)
        have hLne : ¬((sepJoin ((c :: t).reverse)).isEmpty = true) := by
          simpa [List.isEmpty_iff] using hsne
        have hRne : ¬(((c :: t) : List (List Char)).isEmpty = true) := by simp
        rw [if_neg hLne, if_neg hRne, List.map_cons]
        rw [pyStrip_sepJoin _ hrevne hclean]
        by_cases hg2 : measure (w ++ [' ']) ≤ maxW
        · rw [if_pos hg2, if_pos hg2]
          exact congrArg (fun l => joinSp ((c :: t).reverse) :: l) ihsingle
        · rw [if_neg hg2, if_neg hg2, List.map_cons]
          rw [show joinSp [w] = w from rfl, pyStrip_clean w hw.2]
          exact congrArg (fun l => joinSp ((c :: t).reverse) :: w :: l) ihnil

theorem groupGreedy_flatten (measure : List Char → Nat) (maxW : Nat) :
    ∀ (ws cur : List (List Char)),
      (groupGreedy measure maxW cur ws).flatten = cur.reverse ++ ws := by
  intro ws
  induction ws with
  | nil =>
    intro cur
    rw [groupGreedy_nil]
    cases cur with
    | nil => rfl
    | cons c t => simp
  | cons w ws2 ih =>
    intro cur
    rw [groupGreedy_cons]
    by_cases hg1 : measure (sepJoin (cur.reverse ++ [w])) ≤ maxW
    · rw [if_pos hg1, ih (w :: cur)]
      simp [List.append_assoc]
    · rw [if_neg hg1]
      cases cur with
      | nil =>
        rw [if_pos (by decide)]
        simp [ih []]
      | cons c t =>
        rw [if_neg (by simp [List.isEmpty_iff])]
        by_cases hg2 : measure (sepJoin [w]) ≤ maxW
        · rw [if_pos hg2]
          have := ih [w]
          simp only [List.reverse_cons, List.reverse_nil, List.nil_append] at this
          simp [this, List.append_assoc]
        · rw [if_neg hg2]
          simp [ih []]

theorem groupGreedy_clean (measure : List Char → Nat) (maxW : Nat) :
    ∀ (ws cur : List (List Char)),
      (∀ v ∈ cur, WordClean v) → (∀ v ∈ ws, WordClean v) →
      ∀ g ∈ groupGreedy measure maxW cur ws, g ≠ [] ∧ ∀ v ∈ g, WordClean v := by
  intro ws
  induction ws with
  | nil =>
    intro cur hcur _ g hg
    rw [groupGreedy_nil] at hg
    cases cur with
    | nil => simp at hg
    | cons c t =>
      rw [if_neg (by simp [List.isEmpty_iff])] at hg
      simp only [List.mem_singleton] at hg
      subst hg
      exact ⟨by simp, fun v hv => hcur v (List.mem_reverse.1 hv)⟩
  | cons w ws2 ih =>
    intro cur hcur hws g hg
    have hw : WordClean w := hws w (List.mem_cons_self w ws2)
    have hws2 : ∀ v ∈ ws2, WordClean v := fun v hv => hws v (List.mem_cons_of_mem _ hv)
    have hwcur : ∀ v ∈ w :: cur, WordClean v := by
      intro v hv
      rcases List.mem_cons.1 hv with hv | hv
      · subst hv; exact hw
      · exact hcur v hv
    have hsingle : ∀ v ∈ ([w] : List (List Char)), WordClean v := by
      intro v hv
      simp only [List.mem_singleton] at hv
      subst hv; exact hw
    have hnilc : ∀ v ∈ ([] : List (List Char)), WordClean v := by intro v hv; simp at hv
    rw [groupGreedy_cons] at hg
    by_cases hg1 : measure (sepJoin (cur.reverse ++ [w])) ≤ maxW
    · rw [if_pos hg1] at hg
      exact ih (w :: cur) hwcur hws2 g hg
    · rw [if_neg hg1] at hg
      cases cur with
      | nil =>
        rw [if_pos (by decide)] at hg
        rcases List.mem_cons.1 hg with hg | hg
        · subst hg; exact ⟨by simp, hsingle⟩
        · exact ih [] hnilc hws2 g hg
      | cons c t =>
        rw [if_neg (by simp [List.isEmpty_iff])] at hg
        rcases List.mem_cons.1 hg with hg | hg
        · subst hg
          exact ⟨by simp, fun v hv => hcur v (List.mem_reverse.1 hv)⟩
        · by_cases hg2 : measure (sepJoin [w]) ≤ maxW
          · rw [if_pos hg2] at hg
            exact ih [w] hsingle hws2 g hg
          · rw [if_neg hg2] at hg
            rcases List.mem_cons.1 hg with hg | hg
            · subst hg; exact ⟨by simp, hsingle⟩
            · exact ih [] hnilc hws2 g hg

theorem wrap_text_eq_groups (measure : List Char → Nat) (maxW : Nat) (text : List Char) :
    wrap_text measure maxW text = (groupGreedy measure maxW [] (pySplit text)).map joinSp := by
  unfold wrap_text
  by_cases ht : text.isEmpty
  · rw [if_pos ht]
    rw [List.isEmpty_iff.1 ht]
    rfl
  · rw [if_neg ht]
    exact wrapWords_eq_groupGreedy measure maxW (pySplit text) []
      (by intro v hv; simp at hv) (pySplit_clean text)

/-! Claims C6 and C10. -/

/-- C6 counterexample: with a character-count measure and budget 4, the
text `"ab c"` wraps to two lines under the code (which measures
`line + word + ' '`, so `"ab c "` of width 5 exceeds 4), while the greedy
rule stated in the claim (measure `line + nextWord`, `"ab c"` of width 4
fits) would put both words on one line. -/
theorem C6_wrap_guard_counterexample :
    wrap_text List.length 4 ['a', 'b', ' ', 'c'] = [['a', 'b'], ['c']] ∧
    wrap_text_spec List.length 4 ['a', 'b', ' ', 'c'] = [['a', 'b', ' ', 'c']] ∧
    wrap_text List.length 4 ['a', 'b', ' ', 'c'] ≠
      wrap_text_spec List.length 4 ['a', 'b', ' ', 'c'] := by
  refine ⟨by decide, by decide, by decide⟩

/-- C6 (amended): `wrap_text` on empty input returns the empty sequence;
for every measure, budget and text, the lines are exactly the greedy word
groups joined with single spaces, where the greedy guard measures the
current line plus the next word *plus a trailing space* (the code tests
`line + words[0] + ' '` against the budget) — not `line + nextWord` as the
claim stated; a single word whose measured width *with that trailing
space* exceeds the budget is emitted as its own line unshortened.  The
function is total (structural recursion over the word list), hence
terminates for every input. -/
theorem C6_wrap_greedy_amended :
    (∀ (measure : List Char → Nat) (maxW : Nat), wrap_text measure maxW [] = []) ∧
    (∀ (measure : List Char → Nat) (maxW : Nat) (text : List Char),
      wrap_text measure maxW text =
        (groupGreedy measure maxW [] (pySplit text)).map joinSp) ∧
    (∀ (measure : List Char → Nat) (maxW : Nat) (w : List Char),
      WordClean w → maxW < measure (w ++ [' ']) →
      wrap_text measure maxW w = [w]) := by
  refine ⟨fun _ _ => rfl, fun measure maxW text => wrap_text_eq_groups measure maxW text, ?_⟩
  intro measure maxW w hw hover
  unfold wrap_text
  rw [if_neg (by simpa [List.isEmpty_iff] using hw.1)]
  have hsplit : pySplit w = [w] := by
    have h := pySplit_joinSp [w] (by
      intro v hv
      simp only [List.mem_singleton] at hv
      subst hv; exact hw)
    rwa [show joinSp [w] = w from rfl] at h
  rw [hsplit]
  rw [wrapWords_cons]
  rw [if_neg (show ¬measure (([] : List Char) ++ w ++ [' ']) ≤ maxW from by
    rw [List.nil_append]; omega)]
  have hnil : (([] : List Char)).isEmpty = true := rfl
  rw [if_pos hnil]
  rw [pyStrip_clean w hw.2]
  rfl

/-- C6 witness: the amended theorem's overlong-word conjunct applied at a
concrete input where the single word exceeds the budget. -/
theorem C6_wrap_greedy_amended_witness :
    wrap_text List.length 0 ['x', 'y'] = [['x', 'y']] :=
  C6_wrap_greedy_amended.2.2 List.length 0 ['x', 'y'] (by decide) (by decide)

/-- C10: for every measure, budget and text, the whitespace-delimited
words of the lines returned by `wrap_text`, read in order across the
lines, are exactly the whitespace-delimited words of the input in the same
order — no word dropped, duplicated or reordered — and every returned line
is non-empty with no leading or trailing whitespace. -/
theorem C10_wrap_words_preserved :
    ∀ (measure : List Char → Nat) (maxW : Nat) (text : List Char),
      ((wrap_text measure maxW text).map pySplit).flatten = pySplit text ∧
      ∀ line ∈ wrap_text measure maxW text, line ≠ [] ∧ pyStrip line = line := by
  intro measure maxW text
  have hgroups := wrap_text_eq_groups measure maxW text
  have hclean : ∀ v ∈ pySplit text, WordClean v := pySplit_clean text
  have hgclean := groupGreedy_clean measure maxW (pySplit text) []
    (by intro v hv; simp at hv) hclean
  constructor
  · rw [hgroups, List.map_map]
    have hmap : (groupGreedy measure maxW [] (pySplit text)).map (pySplit ∘ joinSp) =
        (groupGreedy measure maxW [] (pySplit text)).map id := by
      apply List.map_congr_left
      intro g hg
      obtain ⟨hne, hgc⟩ := hgclean g hg
      exact pySplit_joinSp g hgc
    rw [hmap, List.map_id]
    have hflat := groupGreedy_flatten measure maxW (pySplit text) []
    simpa using hflat
  · intro line hline
    rw [hgroups] at hline
    obtain ⟨g, hg, hent⟩ := List.mem_map.1 hline
    obtain ⟨hne, hgc⟩ := hgclean g hg
    subst hent
    obtain ⟨w0, ws0, rfl⟩ : ∃ w0 ws0, g = w0 :: ws0 := by
      cases g with
      | nil => exact absurd rfl hne
      | cons w0 ws0 => exact ⟨w0, ws0, rfl⟩
    constructor
    · exact joinSp_ne_nil w0 ws0 (hgc w0 (List.mem_cons_self w0 ws0)).1
    · exact pyStrip_joinSp _ (by simp) hgc

/-- C10 witness: the theorem applied at a concrete wrap, including the
per-line facts for a concrete member line. -/
theorem C10_wrap_words_preserved_witness :
    ((wrap_text List.length 4 ['a', 'b', ' ', 'c']).map pySplit).flatten =
      pySplit ['a', 'b', ' ', 'c'] ∧
    (['a', 'b'] : List Char) ≠ [] ∧ pyStrip ['a', 'b'] = ['a', 'b'] := by
  refine ⟨(C10_wrap_words_preserved List.length 4 ['a', 'b', ' ', 'c']).1, ?_⟩
  exact (C10_wrap_words_preserved List.length 4 ['a', 'b', ' ', 'c']).2
    ['a', 'b'] (by decide)

/-! Claim C9. -/

theorem hex_to_rgb_six (a b c d e f : Char) (va vb vc vd ve vf : Nat)
    (hva : hexVal? a = some va) (hvb : hexVal? b = some vb) (hvc : hexVal? c = some vc)
    (hvd : hexVal? d = some vd) (hve : hexVal? e = some ve) (hvf : hexVal? f = some vf) :
    hex_to_rgb (String.mk [a, b, c, d, e, f]) =
      (16 * (va : Int) + (vb : Int), 16 * (vc : Int) + (vd : Int),
        16 * (ve : Int) + (vf : Int)) := by
  have hwa := hexVal_not_ws hva
  have hwf := hexVal_not_ws hvf
  have hha := hexVal_ne_hash hva
  have hnorm : hexNormalize (String.mk [a, b, c, d, e, f]) = [a, b, c, d, e, f] := by
    unfold hexNormalize
    have hls : lstripHash (String.mk [a, b, c, d, e, f]).data = [a, b, c, d, e, f] :=
      lstripHash_cons hha _
    rw [hls]
    have hps : pyStrip [a, b, c, d, e, f] = [a, b, c, d, e, f] :=
      pyStrip_cons_concat a [b, c, d, e] f hwa hwf
    rw [hps]
    simp
  unfold hex_to_rgb
  rw [hnorm]
  simp [hexParse, pyInt16Pair?, hva, hvb, hvc, hvd, hve, hvf]

theorem byteHexChars_pair (x y : Nat) (hx : x < 16) (hy : y < 16) :
    byteHexChars (16 * x + y) = [toHexDigit x, toHexDigit y] := by
  unfold byteHexChars
  have hdiv : (16 * x + y) / 16 % 16 = x := by omega
  have hmod : (16 * x + y) % 16 = y := by omega
  rw [hdiv, hmod]

/-- C9: for every valid six-digit hexadecimal colour string — given by its
six digit characters with their values — converting it to RGB with
`hex_to_rgb` and back with `rgb_to_hex` returns the same string up to
letter-case normalisation (the result is the lower-case form). -/
theorem C9_hex_roundtrip :
    ∀ (a b c d e f : Char) (va vb vc vd ve vf : Nat),
      hexVal? a = some va → hexVal? b = some vb → hexVal? c = some vc →
      hexVal? d = some vd → hexVal? e = some ve → hexVal? f = some vf →
      rgb_to_hex (hex_to_rgb (String.mk [a, b, c, d, e, f])) =
        String.mk ([a, b, c, d, e, f].map Char.toLower) := by
  intro a b c d e f va vb vc vd ve vf hva hvb hvc hvd hve hvf
  rw [hex_to_rgb_six a b c d e f va vb vc vd ve vf hva hvb hvc hvd hve hvf]
  unfold rgb_to_hex
  have h1 : (16 * (va : Int) + (vb : Int)).toNat = 16 * va + vb := by omega
  have h2 : (16 * (vc : Int) + (vd : Int)).toNat = 16 * vc + vd := by omega
  have h3 : (16 * (ve : Int) + (vf : Int)).toNat = 16 * ve + vf := by omega
  show String.mk (byteHexChars (16 * (va : Int) + (vb : Int)).toNat ++
    byteHexChars (16 * (vc : Int) + (vd : Int)).toNat ++
    byteHexChars (16 * (ve : Int) + (vf : Int)).toNat) = _
  rw [h1, h2, h3]
  rw [byteHexChars_pair va vb (hexVal_lt_16 hva) (hexVal_lt_16 hvb)]
  rw [byteHexChars_pair vc vd (hexVal_lt_16 hvc) (hexVal_lt_16 hvd)]
  rw [byteHexChars_pair ve vf (hexVal_lt_16 hve) (hexVal_lt_16 hvf)]
  rw [toHexDigit_hexVal hva, toHexDigit_hexVal hvb, toHexDigit_hexVal hvc,
    toHexDigit_hexVal hvd, toHexDigit_hexVal hve, toHexDigit_hexVal hvf]
  rfl

/-- C9 witness: the round-trip theorem applied to the mixed-case string
`"AaBbCc"`, which comes back as its lower-case form `"aabbcc"`. -/
theorem C9_hex_roundtrip_witness :
    rgb_to_hex (hex_to_rgb (String.mk ['A', 'a', 'B', 'b', 'C', 'c'])) =
      String.mk (['A', 'a', 'B', 'b', 'C', 'c'].map Char.toLower) :=
  C9_hex_roundtrip 'A' 'a' 'B' 'b' 'C' 'c' 10 10 11 11 12 12
    (by decide) (by decide) (by decide) (by decide) (by decide) (by decide)
